import Mathlib

/-!
Shallow embedding of the `ll` directory-listing program (src/main.rs) and
proofs about its rendering pipeline: icon/alias resolution, configuration
merging, ignore filtering, sorting, visible-length measurement and the
column layout engine.  Rust `HashMap`s are modelled as association lists,
Rust `String`s as Lean `String`s (lists of Unicode scalar values), and
machine integers as `Nat`.
-/

namespace LL

/-! ## Visible-length measurer (`visible_length`, main.rs 434-439)

The Rust code strips every match of the regex `\x1b\[[0-9;]*m` via
`Regex::replace_all` and counts the remaining `char`s.  We embed
`replace_all` as a left-to-right scanner: at each position, either the
escape pattern matches (the pattern is deterministic: after `ESC [` a
maximal run of digits/semicolons must be followed by `m`) and the match is
removed, or we keep one character and move on.  -/

/-- Consume `[0-9;]*m` (the tail of the escape regex after `ESC [`):
zero or more digits or semicolons followed by a final `m`; on success
return the characters after the match. -/
def take_csi_body : List Char → Option (List Char)
  | [] => none
  | c :: rest =>
    if c = 'm' then some rest
    else if c.isDigit || c = ';' then take_csi_body rest
    else none

theorem take_csi_body_length :
    ∀ (l r : List Char), take_csi_body l = some r → r.length < l.length := by
  intro l
  induction l with
  | nil => intro r h; simp [take_csi_body] at h
  | cons c rest ih =>
    intro r h
    by_cases hm : c = 'm'
    · simp [take_csi_body, hm] at h
      simp [← h]
    · by_cases hd : (c.isDigit || c = ';') = true
      · simp [take_csi_body, hm, hd] at h
        exact Nat.lt_succ_of_lt (ih r h)
      · simp [take_csi_body, hm, hd] at h

/-- Try to match the escape regex `\x1b\[[0-9;]*m` at the head of the
character list; on success return the characters after the match. -/
def drop_esc : List Char → Option (List Char)
  | c1 :: c2 :: rest =>
    if c1 = '\x1b' ∧ c2 = '[' then take_csi_body rest else none
  | _ => none

theorem drop_esc_length :
    ∀ (l r : List Char), drop_esc l = some r → r.length < l.length := by
  intro l r h
  match l with
  | [] => simp [drop_esc] at h
  | [c] => simp [drop_esc] at h
  | c1 :: c2 :: rest =>
    rw [drop_esc] at h
    by_cases hc : c1 = '\x1b' ∧ c2 = '['
    · rw [if_pos hc] at h
      have := take_csi_body_length rest r h
      simp only [List.length_cons]
      omega
    · rw [if_neg hc] at h
      exact absurd h (by simp)

/-- Scanner for `replace_all`: at each position either the escape regex
matches (`drop_esc`) and the match is removed, or one character is kept.
Structural recursion on a fuel argument so that the kernel can evaluate it;
each step removes at least one character, so `fuel = l.length` suffices. -/
def strip_ansi_go : Nat → List Char → List Char
  | _, [] => []
  | 0, l => l
  | fuel + 1, c :: rest =>
    match drop_esc (c :: rest) with
    | some rest2 => strip_ansi_go fuel rest2
    | none => c :: strip_ansi_go fuel rest

/-- Remove every match of the ANSI escape regex, scanning left to right
(the embedding of `ansi_escape.replace_all(input, "")`). -/
def strip_ansi (l : List Char) : List Char := strip_ansi_go l.length l

theorem strip_ansi_go_congr :
    ∀ (f1 f2 : Nat) (l : List Char), l.length ≤ f1 → l.length ≤ f2 →
      strip_ansi_go f1 l = strip_ansi_go f2 l := by
  intro f1
  induction f1 with
  | zero =>
    intro f2 l h1 _
    match l with
    | [] => cases f2 <;> rfl
  | succ g1 ih =>
    intro f2 l h1 h2
    match l with
    | [] => cases f2 <;> rfl
    | c :: rest =>
      match f2 with
      | g2 + 1 =>
        simp only [strip_ansi_go]
        simp only [List.length_cons] at h1 h2
        match hd : drop_esc (c :: rest) with
        | some rest2 =>
          have hlen := drop_esc_length _ _ hd
          simp only [List.length_cons] at hlen
          exact ih g2 rest2 (by omega) (by omega)
        | none =>
          have := ih g2 rest (by omega) (by omega)
          rw [this]

theorem strip_ansi_of_drop_esc_some (c : Char) (rest rest2 : List Char)
    (h : drop_esc (c :: rest) = some rest2) :
    strip_ansi (c :: rest) = strip_ansi rest2 := by
  have hlen := drop_esc_length _ _ h
  simp only [strip_ansi, strip_ansi_go, List.length_cons, h]
  exact strip_ansi_go_congr _ _ _ (by simp at hlen ⊢; omega) (le_refl _)

theorem drop_esc_none_of_head (c : Char) (rest : List Char) (hc : c ≠ '\x1b') :
    drop_esc (c :: rest) = none := by
  match rest with
  | [] => rfl
  | c2 :: rest2 =>
    rw [drop_esc, if_neg]
    intro hco
    exact hc hco.1

theorem strip_ansi_cons_of_drop_esc_none (c : Char) (rest : List Char)
    (h : drop_esc (c :: rest) = none) :
    strip_ansi (c :: rest) = c :: strip_ansi rest := by
  simp only [strip_ansi, strip_ansi_go, List.length_cons, h]

/-- `visible_length` (main.rs 434-439): length in Unicode scalar values of
the input with all ANSI color escape sequences removed. -/
def visible_length (s : String) : Nat := (strip_ansi s.data).length

theorem take_csi_body_append (body rest : List Char)
    (hb : ∀ c ∈ body, (c.isDigit || c = ';') = true) :
    take_csi_body (body ++ 'm' :: rest) = some rest := by
  induction body with
  | nil => simp [take_csi_body]
  | cons c body ih =>
    have hc : (c.isDigit || c = ';') = true := hb c (by simp)
    have hm : c ≠ 'm' := by
      intro he
      rw [he] at hc
      simp at hc
    simp only [List.cons_append, take_csi_body, if_neg hm, if_pos hc]
    exact ih (fun d hd => hb d (by simp [hd]))

theorem strip_ansi_esc (body rest : List Char)
    (hb : ∀ c ∈ body, (c.isDigit || c = ';') = true) :
    strip_ansi ('\x1b' :: '[' :: (body ++ 'm' :: rest)) = strip_ansi rest := by
  apply strip_ansi_of_drop_esc_some
  rw [drop_esc, if_pos ⟨rfl, rfl⟩]
  exact take_csi_body_append body rest hb

theorem strip_ansi_no_esc (l : List Char) (h : '\x1b' ∉ l) : strip_ansi l = l := by
  induction l with
  | nil => rfl
  | cons c rest ih =>
    have hc : c ≠ '\x1b' := fun he => h (he ▸ List.mem_cons_self c rest)
    rw [strip_ansi_cons_of_drop_esc_none c rest (drop_esc_none_of_head c rest hc)]
    rw [ih (fun hm => h (List.mem_cons_of_mem c hm))]

/-- Claim C4: `visible_length` counts the Unicode scalar values that remain
after deleting every ANSI escape sequence `ESC [ digits/semicolons m`: a
string without the escape character keeps its full character count, each
escape sequence is removed whole (so a string made only of escape sequences
measures 0), ordinary characters are kept one by one, and the function is
correct for zero, one or several escape sequences in one string. -/
theorem C4_visible_length :
    (∀ l : List Char, '\x1b' ∉ l → visible_length (String.mk l) = l.length) ∧
    (∀ body rest : List Char, (∀ c ∈ body, (c.isDigit || c = ';') = true) →
      strip_ansi ('\x1b' :: '[' :: (body ++ 'm' :: rest)) = strip_ansi rest) ∧
    (∀ (c : Char) (rest : List Char), c ≠ '\x1b' →
      strip_ansi (c :: rest) = c :: strip_ansi rest) ∧
    (∀ (c : Char) (rest : List Char), drop_esc (c :: rest) = none →
      strip_ansi (c :: rest) = c :: strip_ansi rest) ∧
    visible_length (String.mk ['\x1b', '[', '3', '1', 'm', '\x1b', '[', '0', 'm']) = 0 ∧
    visible_length "abc" = 3 ∧
    visible_length (String.mk
      (['\x1b', '[', '3', '8', ';', '5', ';', '9', 'm'] ++ ['é', 'b'] ++
        ['\x1b', '[', '3', '9', 'm'] ++ ['c'])) = 3 := by
  refine ⟨?_, strip_ansi_esc, ?_, strip_ansi_cons_of_drop_esc_none,
    by decide, by decide, by decide⟩
  · intro l h
    show (strip_ansi l).length = l.length
    rw [strip_ansi_no_esc l h]
  · intro c rest hc
    exact strip_ansi_cons_of_drop_esc_none c rest (drop_esc_none_of_head c rest hc)

theorem C4_visible_length_witness :
    visible_length (String.mk ['x', 'y']) = 2 :=
  C4_visible_length.1 ['x', 'y'] (by decide)

/-! ## Icon resolver (`resolve_icon`, main.rs 160-181) -/

/-- The candidate scan of `resolve_icon`: starting from the fallback, take
the table value of the first query present in `icons` (the `for` loop with
`break` at main.rs 166-173). -/
def lookup_first (icons : List (String × String)) (fallback : String) :
    List String → String
  | [] => fallback
  | q :: qs =>
    match icons.lookup q with
    | some v => v
    | none => lookup_first icons fallback qs

/-- `resolve_icon` (main.rs 160-181): first-match table lookup with
fallback, followed by exactly one alias substitution (main.rs 176-178). -/
def resolve_icon (icons aliases : List (String × String)) (fallback : String)
    (queries : List String) : String :=
  let icon := lookup_first icons fallback queries
  match aliases.lookup icon with
  | some found => found
  | none => icon

theorem lookup_first_append (icons : List (String × String)) (fb : String)
    (qs1 qs2 : List String) (q v : String)
    (h1 : ∀ q1 ∈ qs1, icons.lookup q1 = none) (h2 : icons.lookup q = some v) :
    lookup_first icons fb (qs1 ++ q :: qs2) = v := by
  induction qs1 with
  | nil => simp [lookup_first, h2]
  | cons p qs1 ih =>
    have hp : icons.lookup p = none := h1 p (by simp)
    simp only [List.cons_append, lookup_first, hp]
    exact ih (fun q1 hq1 => h1 q1 (by simp [hq1]))

theorem lookup_first_none (icons : List (String × String)) (fb : String)
    (qs : List String) (h : ∀ q ∈ qs, icons.lookup q = none) :
    lookup_first icons fb qs = fb := by
  induction qs with
  | nil => rfl
  | cons p qs ih =>
    have hp : icons.lookup p = none := h p (by simp)
    simp only [lookup_first, hp]
    exact ih (fun q hq => h q (by simp [hq]))

theorem resolve_icon_eq (icons aliases : List (String × String)) (fb : String)
    (qs : List String) :
    resolve_icon icons aliases fb qs =
      (aliases.lookup (lookup_first icons fb qs)).getD (lookup_first icons fb qs) := by
  unfold resolve_icon
  cases h : List.lookup (lookup_first icons fb qs) aliases <;> simp [h]

/-- Claim C1: `resolve_icon` returns the table value of the first candidate
key present in the table (later candidates are ignored), or the fallback
glyph when no candidate is present, and then applies exactly one alias
substitution to the obtained glyph — never a second hop, so with
`icons[key] = "X"`, `aliases["X"] = "Y"`, `aliases["Y"] = "Z"` the result
is `"Y"`. -/
theorem C1_resolve_icon :
    (∀ (icons aliases : List (String × String)) (fallback : String)
        (qs1 qs2 : List String) (q v : String),
      (∀ q1 ∈ qs1, icons.lookup q1 = none) → icons.lookup q = some v →
      resolve_icon icons aliases fallback (qs1 ++ q :: qs2) =
        (aliases.lookup v).getD v) ∧
    (∀ (icons aliases : List (String × String)) (fallback : String)
        (qs : List String),
      (∀ q ∈ qs, icons.lookup q = none) →
      resolve_icon icons aliases fallback qs =
        (aliases.lookup fallback).getD fallback) ∧
    resolve_icon [("key", "X")] [("X", "Y"), ("Y", "Z")] "fb" ["key"] = "Y" := by
  refine ⟨?_, ?_, by decide⟩
  · intro icons aliases fallback qs1 qs2 q v h1 h2
    rw [resolve_icon_eq, lookup_first_append icons fallback qs1 qs2 q v h1 h2]
  · intro icons aliases fallback qs h
    rw [resolve_icon_eq, lookup_first_none icons fallback qs h]

theorem C1_resolve_icon_witness :
    resolve_icon [("other", "U"), ("a.txt", "T")] [("T", "V")] "fb"
      ["miss", "a.txt"] = "V" := by
  have h := C1_resolve_icon.1 [("other", "U"), ("a.txt", "T")] [("T", "V")]
    "fb" ["miss"] [] "a.txt" "T" (by decide) (by decide)
  exact h.trans (by decide)

/-! ## Column layout engine (`display_in_columns`, main.rs 391-432)

`terminal::size()` is an external query; the width is a parameter here.
The printed output is modelled as the list of emitted lines, one per grid
row (each row is the concatenation of its cells, `println!` ends it). -/

/-- `max_item_len` (main.rs 392-396):
`list.iter().map(visible_length).max().unwrap_or_default()`. -/
def max_item_len (list : List String) : Nat :=
  ((list.map visible_length).max?).getD 0

/-- `cols` before the collapse rule (main.rs 407):
`max(1, term_width / col_width)` with `col_width = max_len + 2`. -/
def naive_cols (max_len term_width : Nat) : Nat :=
  max 1 (term_width / (max_len + 2))

/-- `rows` before the collapse rule (main.rs 410): ceiling division
`max(1, (list_len + cols - 1) / cols)`. -/
def naive_rows (list_len max_len term_width : Nat) : Nat :=
  max 1 ((list_len + naive_cols max_len term_width - 1) /
    naive_cols max_len term_width)

/-- The final `(cols, rows)` of `display_in_columns` after the degenerate
collapse rule (main.rs 412-415): when the naive grid has exactly one row,
fall back to a single column with one row per entry. -/
def compute_dims (list_len max_len term_width : Nat) : Nat × Nat :=
  if naive_rows list_len max_len term_width = 1 then (1, list_len)
  else (naive_cols max_len term_width, naive_rows list_len max_len term_width)

/-- One grid cell (main.rs 419-427): the entry at column-major index
`col * rows + row` right-padded with spaces to `col_width` using its
visible length; nothing when the index is past the end of the list. -/
def render_cell (list : List String) (col_width rows row col : Nat) : String :=
  match list[col * rows + row]? with
  | some value =>
    value ++ String.mk (List.replicate (col_width - visible_length value) ' ')
  | none => ""

/-- `display_in_columns` (main.rs 391-432) as the list of printed lines:
rows are emitted in order, and each row concatenates its cells over the
columns in order. -/
def display_in_columns (list : List String) (term_width : Nat) : List String :=
  let m := max_item_len list
  let dims := compute_dims list.length m term_width
  (List.range dims.2).map fun row =>
    String.join ((List.range dims.1).map fun col =>
      render_cell list (m + 2) dims.2 row col)

theorem le_max_item_len (list : List String) (v : String) (h : v ∈ list) :
    visible_length v ≤ max_item_len list := by
  have hmem : visible_length v ∈ list.map visible_length :=
    List.mem_map_of_mem _ h
  obtain ⟨a, ha⟩ := Option.isSome_iff_exists.mp (List.isSome_max?_of_mem hmem)
  obtain ⟨-, hall⟩ := List.max?_eq_some_iff'.mp ha
  unfold max_item_len
  rw [ha]
  exact hall _ hmem

/-- Claim C2: whenever the naive grid would have exactly one row, the
layout collapses to a single column: `cols` becomes 1 and `rows` the list
length; in particular 3 lines of visible length 2 (so `col_width = 4`) at
terminal width 100 print as 3 rows of one entry each. -/
theorem C2_degenerate_collapse :
    (∀ list_len max_len term_width : Nat,
      naive_rows list_len max_len term_width = 1 →
      compute_dims list_len max_len term_width = (1, list_len)) ∧
    compute_dims 3 2 100 = (1, 3) ∧
    display_in_columns ["aa", "bb", "cc"] 100 = ["aa  ", "bb  ", "cc  "] := by
  refine ⟨?_, by decide, by decide⟩
  intro a b c h
  simp [compute_dims, h]

theorem C2_degenerate_collapse_witness :
    compute_dims 1 0 2 = (1, 1) :=
  C2_degenerate_collapse.1 1 0 2 (by decide)

/-- Claim C3: the grid is filled in column-major order: the cell at
`(row, col)` shows the list element at index `col * rows + row` (padded to
the column width), a cell whose index reaches the list length stays empty,
and the output lines are the rows in order `0..rows`, each concatenating
the columns `0..cols` of that row; for 5 entries in a 2-column, 3-row grid
indices 0,1,2 fill column 0 and indices 3,4 fill column 1, cell (2,1)
staying empty. -/
theorem C3_column_major_fill :
    (∀ (list : List String) (cw rows row col : Nat)
        (h : col * rows + row < list.length),
      render_cell list cw rows row col =
        list.get ⟨col * rows + row, h⟩ ++
          String.mk (List.replicate
            (cw - visible_length (list.get ⟨col * rows + row, h⟩)) ' ')) ∧
    (∀ (list : List String) (cw rows row col : Nat),
      list.length ≤ col * rows + row → render_cell list cw rows row col = "") ∧
    (∀ (list : List String) (term_width row : Nat)
        (h : row <
          (compute_dims list.length (max_item_len list) term_width).2),
      (display_in_columns list term_width).get ⟨row, by
          simpa [display_in_columns] using h⟩ =
        String.join ((List.range
            (compute_dims list.length (max_item_len list) term_width).1).map
          fun col =>
            render_cell list (max_item_len list + 2)
              (compute_dims list.length (max_item_len list) term_width).2
              row col)) ∧
    display_in_columns ["a", "b", "c", "d", "e"] 7 =
      ["a  d  ", "b  e  ", "c  "] ∧
    render_cell ["a", "b", "c", "d", "e"] 3 3 0 1 = "d  " ∧
    render_cell ["a", "b", "c", "d", "e"] 3 3 2 1 = "" := by
  refine ⟨?_, ?_, ?_, by decide, by decide, by decide⟩
  · intro list cw rows row col h
    simp [render_cell, List.getElem?_eq_getElem h]
  · intro list cw rows row col h
    simp [render_cell, List.getElem?_eq_none h]
  · intro list term_width row h
    simp [display_in_columns]

theorem C3_column_major_fill_witness :
    render_cell ["p", "q"] 3 2 1 0 = "q  " := by
  have h := C3_column_major_fill.1 ["p", "q"] 3 2 1 0 (by decide)
  exact h.trans (by decide)

/-- Claim C10: the layout pass is total: the column width
`max_item_len + 2` is at least 2 (the divisor is never zero), the column
count is clamped to at least 1 both before and after the collapse rule,
and no padding subtraction can underflow because every element's visible
length is bounded by `max_item_len`, the maximum over the whole list. -/
theorem C10_layout_total :
    ∀ (list : List String) (term_width : Nat),
      2 ≤ max_item_len list + 2 ∧
      1 ≤ naive_cols (max_item_len list) term_width ∧
      1 ≤ (compute_dims list.length (max_item_len list) term_width).1 ∧
      ∀ v ∈ list, visible_length v ≤ max_item_len list := by
  intro list term_width
  refine ⟨by omega, ?_, ?_, fun v hv => le_max_item_len list v hv⟩
  · simp [naive_cols]
  · unfold compute_dims
    split
    · simp
    · simp [naive_cols]

theorem C10_layout_total_witness :
    visible_length "zz" ≤ max_item_len ["zz"] :=
  (C10_layout_total ["zz"] 11).2.2.2 "zz" (by decide)

/-! ## Configuration model and merging (`get_config`, main.rs 353-389)

Rust `HashMap`s are modelled as association lists whose key lists are
nodup (the `HashMap` invariant); `insert` replaces the binding of an
existing key and `extend` inserts every binding of the override map. -/

/-- Rust `HashMap::insert`: replace the value bound to an existing key, or
append a new binding. -/
def hm_insert {α : Type} : List (String × α) → String → α → List (String × α)
  | [], k, v => [(k, v)]
  | (k1, v1) :: rest, k, v =>
    if k1 = k then (k, v) :: rest else (k1, v1) :: hm_insert rest k v

/-- Rust `HashMap::extend`: insert every binding of the override map. -/
def hm_extend {α : Type} (m ov : List (String × α)) : List (String × α) :=
  ov.foldl (fun acc p => hm_insert acc p.1 p.2) m

/-- `Config` (main.rs 33-40). -/
structure Config where
  aliases : List (String × String)
  folders : List (String × String)
  files : List (String × String)
  colors : List (String × String)
  ignore : List (String × List String)

/-- `OptionalConfig` (main.rs 24-31), the user override document. -/
structure OptionalConfig where
  aliases : Option (List (String × String))
  folders : Option (List (String × String))
  files : Option (List (String × String))
  colors : Option (List (String × String))
  ignore : Option (List (String × List String))

/-- The merge step of `get_config` (main.rs 363-385): extend the four
lookup tables with the user override document, then wholesale-replace each
`ignore` sub-table the override supplies. -/
def merge_config (config : Config) (custom : OptionalConfig) : Config :=
  let ig := custom.ignore.getD []
  let ignore1 :=
    match ig.lookup "files" with
    | some fs => hm_insert config.ignore "files" fs
    | none => config.ignore
  let ignore2 :=
    match ig.lookup "folders" with
    | some fo => hm_insert ignore1 "folders" fo
    | none => ignore1
  { aliases := hm_extend config.aliases (custom.aliases.getD [])
    folders := hm_extend config.folders (custom.folders.getD [])
    files := hm_extend config.files (custom.files.getD [])
    colors := hm_extend config.colors (custom.colors.getD [])
    ignore := ignore2 }

theorem lookup_hm_insert_self {α : Type} (m : List (String × α)) (k : String)
    (v : α) : (hm_insert m k v).lookup k = some v := by
  induction m with
  | nil => simp [hm_insert]
  | cons p rest ih =>
    obtain ⟨k1, v1⟩ := p
    by_cases hk : k1 = k
    · simp [hm_insert, hk]
    · have hb : (k == k1) = false := beq_eq_false_iff_ne.mpr (Ne.symm hk)
      simp [hm_insert, hk, List.lookup_cons, hb, ih]

theorem lookup_hm_insert_other {α : Type} (m : List (String × α))
    (k k2 : String) (v : α) (h : k2 ≠ k) :
    (hm_insert m k v).lookup k2 = m.lookup k2 := by
  have hb : (k2 == k) = false := beq_eq_false_iff_ne.mpr h
  induction m with
  | nil => simp [hm_insert, List.lookup_cons, hb]
  | cons p rest ih =>
    obtain ⟨k1, v1⟩ := p
    by_cases hk : k1 = k
    · subst hk
      simp [hm_insert, List.lookup_cons, hb]
    · simp only [hm_insert, if_neg hk, List.lookup_cons]
      rw [ih]

theorem lookup_hm_extend_none {α : Type} (ov m : List (String × α))
    (k : String) (h : ov.lookup k = none) :
    (hm_extend m ov).lookup k = m.lookup k := by
  induction ov generalizing m with
  | nil => rfl
  | cons p rest ih =>
    obtain ⟨k1, v1⟩ := p
    rw [List.lookup_cons] at h
    match hbeq : k == k1 with
    | true => rw [hbeq] at h; exact absurd h (by simp)
    | false =>
      rw [hbeq] at h
      show (hm_extend (hm_insert m k1 v1) rest).lookup k = m.lookup k
      rw [ih (hm_insert m k1 v1) h]
      exact lookup_hm_insert_other m k1 k v1 (by simpa using hbeq)

theorem lookup_hm_extend_some {α : Type} (ov m : List (String × α))
    (k : String) (v : α) (hnd : (ov.map Prod.fst).Nodup)
    (h : ov.lookup k = some v) : (hm_extend m ov).lookup k = some v := by
  induction ov generalizing m with
  | nil => simp at h
  | cons p rest ih =>
    obtain ⟨k1, v1⟩ := p
    rw [List.lookup_cons] at h
    rw [List.map_cons, List.nodup_cons] at hnd
    match hbeq : k == k1 with
    | true =>
      rw [hbeq] at h
      have hk : k = k1 := by simpa using hbeq
      have hrest : rest.lookup k = none := by
        rw [List.lookup_eq_none_iff]
        intro q hq
        have hmem2 : q.1 ∈ rest.map Prod.fst := List.mem_map_of_mem Prod.fst hq
        have hne : q.1 ≠ k1 := fun he => hnd.1 (he ▸ hmem2)
        simp only [bne_iff_ne, hk]
        exact Ne.symm hne
      show (hm_extend (hm_insert m k1 v1) rest).lookup k = some v
      rw [lookup_hm_extend_none rest (hm_insert m k1 v1) k hrest, hk,
        lookup_hm_insert_self]
      simpa using h
    | false =>
      rw [hbeq] at h
      exact ih hnd.2 h (m := hm_insert m k1 v1)

/-- Claim C5: merging a user override into the default configuration is a
monotonic union for the `files`, `folders`, `colors` and `aliases` tables:
a key the override binds gets the override's value in the merged table
(in particular override-only keys appear unchanged), a key the override
does not bind keeps its default value; the `ignore` sub-tables (`files`,
`folders`) are instead wholesale-replaced when the override supplies that
sub-key and otherwise keep the default. -/
theorem C5_config_merge (d : Config) (o : OptionalConfig)
    (hfi : (((o.files.getD []).map Prod.fst)).Nodup)
    (hfo : (((o.folders.getD []).map Prod.fst)).Nodup)
    (hco : (((o.colors.getD []).map Prod.fst)).Nodup)
    (hal : (((o.aliases.getD []).map Prod.fst)).Nodup) :
    (∀ k v, (o.files.getD []).lookup k = some v →
      (merge_config d o).files.lookup k = some v) ∧
    (∀ k, (o.files.getD []).lookup k = none →
      (merge_config d o).files.lookup k = d.files.lookup k) ∧
    (∀ k v, (o.folders.getD []).lookup k = some v →
      (merge_config d o).folders.lookup k = some v) ∧
    (∀ k, (o.folders.getD []).lookup k = none →
      (merge_config d o).folders.lookup k = d.folders.lookup k) ∧
    (∀ k v, (o.colors.getD []).lookup k = some v →
      (merge_config d o).colors.lookup k = some v) ∧
    (∀ k, (o.colors.getD []).lookup k = none →
      (merge_config d o).colors.lookup k = d.colors.lookup k) ∧
    (∀ k v, (o.aliases.getD []).lookup k = some v →
      (merge_config d o).aliases.lookup k = some v) ∧
    (∀ k, (o.aliases.getD []).lookup k = none →
      (merge_config d o).aliases.lookup k = d.aliases.lookup k) ∧
    (∀ l, (o.ignore.getD []).lookup "files" = some l →
      (merge_config d o).ignore.lookup "files" = some l) ∧
    ((o.ignore.getD []).lookup "files" = none →
      (merge_config d o).ignore.lookup "files" = d.ignore.lookup "files") ∧
    (∀ l, (o.ignore.getD []).lookup "folders" = some l →
      (merge_config d o).ignore.lookup "folders" = some l) ∧
    ((o.ignore.getD []).lookup "folders" = none →
      (merge_config d o).ignore.lookup "folders" =
        d.ignore.lookup "folders") := by
  have hne : ("files" : String) ≠ "folders" := by decide
  refine ⟨fun k v h => lookup_hm_extend_some _ _ k v hfi h,
    fun k h => lookup_hm_extend_none _ _ k h,
    fun k v h => lookup_hm_extend_some _ _ k v hfo h,
    fun k h => lookup_hm_extend_none _ _ k h,
    fun k v h => lookup_hm_extend_some _ _ k v hco h,
    fun k h => lookup_hm_extend_none _ _ k h,
    fun k v h => lookup_hm_extend_some _ _ k v hal h,
    fun k h => lookup_hm_extend_none _ _ k h, ?_, ?_, ?_, ?_⟩ <;>
    · first
      | (intro l h
         simp only [merge_config, h]
         cases hfo2 : (o.ignore.getD []).lookup "folders" <;>
           simp [hfo2, lookup_hm_insert_self, lookup_hm_insert_other _ _ _ _ hne]
        )
      | (intro h
         simp only [merge_config, h]
         cases hfi2 : (o.ignore.getD []).lookup "files" <;>
           cases hfo2 : (o.ignore.getD []).lookup "folders" <;>
           simp [hfi2, hfo2, lookup_hm_insert_self,
             lookup_hm_insert_other _ _ _ _ hne,
             lookup_hm_insert_other _ _ _ _ (Ne.symm hne)]
        )

theorem C5_config_merge_witness :
    (merge_config
        ⟨[("X", "Y")], [("lib", "L")], [("a.txt", "A")], [("dir", "blue")],
          [("files", ["a"]), ("folders", ["b"])]⟩
        ⟨none, none, some [("b.txt", "B")], none,
          some [("folders", ["c"])]⟩).files.lookup "b.txt" = some "B" :=
  (C5_config_merge
    ⟨[("X", "Y")], [("lib", "L")], [("a.txt", "A")], [("dir", "blue")],
      [("files", ["a"]), ("folders", ["b"])]⟩
    ⟨none, none, some [("b.txt", "B")], none, some [("folders", ["c"])]⟩
    (by decide) (by decide) (by decide) (by decide)).1 "b.txt" "B" (by decide)

/-! ## Color classification (`build_file_entry` main.rs 220-226,
`build_dir_entry` main.rs 260-264, `is_executable` main.rs 441-453) -/

/-- Target platform, selecting the `#[cfg(unix)]` / `#[cfg(windows)]`
body of `is_executable` and `get_file_size`. -/
inductive Platform
  | unix
  | windows
deriving DecidableEq

/-- Character-wise lowercasing.  `Char.toLower` lowercases exactly the
ASCII uppercase letters, so this is exactly Rust's `to_ascii_lowercase`;
it also stands in for `str::to_lowercase`, with which it agrees on all
ASCII input. -/
def to_lower (s : String) : String := String.mk (s.data.map Char.toLower)

/-- Rust `starts_with('.')`: the first character is a dot. -/
def starts_with_dot (s : String) : Bool :=
  match s.data with
  | c :: _ => c = '.'
  | [] => false

/-- Rust `ends_with('.')`: the last character is a dot. -/
def ends_with_dot (s : String) : Bool :=
  match s.data.getLast? with
  | some c => c = '.'
  | none => false

/-- `is_executable` (main.rs 441-453): on unix, any execute permission bit
of the mode (`mode & 0o111 != 0`); on windows, an `exe`/`bat`/`cmd`
extension allowlist. -/
def is_executable (plat : Platform) (ext : Option String) (mode : Nat) :
    Bool :=
  match plat with
  | .unix => (mode &&& 0o111) != 0
  | .windows =>
    match ext with
    | some e => e == "exe" || e == "bat" || e == "cmd"
    | none => false

/-- The color-class choice of `build_file_entry` (main.rs 220-226). -/
def file_color_type (plat : Platform) (basename : String) (ext : Option String)
    (mode : Nat) : String :=
  if is_executable plat ext mode then "executable_file"
  else if starts_with_dot basename then "hidden"
  else "file"

/-- The color-class choice of `build_dir_entry` (main.rs 260-264). -/
def dir_color_type (basename : String) : String :=
  if starts_with_dot basename then "hidden_dir" else "dir"

/-- Claim C6: a file with metadata is classed `executable_file` exactly
when an execute bit is set (unix) or the extension is `exe`, `bat` or
`cmd` (windows); otherwise `hidden` exactly when its basename starts with
a dot, otherwise `file`; a directory is `hidden_dir` exactly when its
basename starts with a dot, otherwise `dir`. -/
theorem C6_color_classification :
    (∀ (ext : Option String) (mode : Nat),
      is_executable .unix ext mode = true ↔ mode &&& 0o111 ≠ 0) ∧
    (∀ (ext : Option String) (mode : Nat),
      is_executable .windows ext mode = true ↔
        ext = some "exe" ∨ ext = some "bat" ∨ ext = some "cmd") ∧
    (∀ (plat : Platform) (basename : String) (ext : Option String)
        (mode : Nat),
      (is_executable plat ext mode = true →
        file_color_type plat basename ext mode = "executable_file") ∧
      (is_executable plat ext mode = false → starts_with_dot basename = true →
        file_color_type plat basename ext mode = "hidden") ∧
      (is_executable plat ext mode = false → starts_with_dot basename = false →
        file_color_type plat basename ext mode = "file")) ∧
    (∀ basename : String,
      (dir_color_type basename = "hidden_dir" ↔
        starts_with_dot basename = true) ∧
      (dir_color_type basename = "dir" ↔
        starts_with_dot basename = false)) := by
  refine ⟨?_, ?_, ?_, ?_⟩
  · intro ext mode
    simp [is_executable]
  · intro ext mode
    match ext with
    | none => simp [is_executable]
    | some e => simp [is_executable, or_assoc]
  · intro plat basename ext mode
    refine ⟨fun he => ?_, fun he hd => ?_, fun he hd => ?_⟩
    · simp [file_color_type, he]
    · simp [file_color_type, he, hd]
    · simp [file_color_type, he, hd]
  · intro basename
    by_cases hd : starts_with_dot basename = true <;>
      simp_all [dir_color_type]

theorem C6_color_classification_witness :
    file_color_type .unix "script.sh" none 0o755 = "executable_file" :=
  (C6_color_classification.2.2.1 .unix "script.sh" none 0o755).1 (by decide)

/-! ## Entry rendering (`format_with_color` main.rs 148-158,
`build_file_entry` main.rs 183-236, `build_dir_entry` main.rs 238-269,
the rendering loop of `show_entries` main.rs 306-330)

External collaborators are passed as parameters: `supported` is the
`supports_color` stdout query, `paint` is crossterm's
`message.with(color).to_string()`, and `fmt_size` is the `bytesize`
formatting of main.rs 216-218. -/

/-- Crossterm named colors (the codomain of `get_color_from_string`,
main.rs 127-146). -/
inductive CColor
  | red | green | yellow | blue | magenta | cyan | white | grey
  | darkRed | darkGreen | darkYellow | darkBlue | darkMagenta | darkCyan
  | darkGrey | black
deriving DecidableEq

/-- `get_color_from_string` (main.rs 127-146). -/
def get_color_from_string (color_name : String) : CColor :=
  match to_lower color_name with
  | "red" => .red
  | "green" => .green
  | "yellow" => .yellow
  | "blue" => .blue
  | "magenta" => .magenta
  | "cyan" => .cyan
  | "white" => .white
  | "grey" => .grey
  | "darkred" => .darkRed
  | "darkgreen" => .darkGreen
  | "darkyellow" => .darkYellow
  | "darkblue" => .darkBlue
  | "darkmagenta" => .darkMagenta
  | "darkcyan" => .darkCyan
  | "darkgrey" => .darkGrey
  | _ => .black

/-- `format_with_color` (main.rs 148-158): when the output supports color,
look the class name up in the color table (defaulting to `black`) and let
crossterm paint the message; otherwise return the message unchanged. -/
def format_with_color (paint : CColor → String → String) (supported : Bool)
    (config : Config) (message : String) (name : String) : String :=
  if supported then
    paint (get_color_from_string ((config.colors.lookup name).getD "black"))
      message
  else message

/-- The slice of `fs::Metadata` the program consults: directory flag,
byte size, permission mode. -/
structure MetaD where
  is_dir : Bool
  size : Nat
  mode : Nat
deriving DecidableEq

/-- `build_file_entry` (main.rs 183-236), over the `std::path`
decomposition (dirname, basename, extension) of the entry's relative
path. -/
def build_file_entry (plat : Platform) (paint : CColor → String → String)
    (fmt_size : Nat → String) (supported : Bool) (config : Config)
    (dirname basename : String) (ext : Option String) (md : MetaD) :
    String :=
  let extq := "." ++ to_lower (ext.getD "")
  let icon := resolve_icon config.files config.aliases ""
    [dirname ++ "/" ++ basename, basename, extq, "file"]
  let size := fmt_size md.size
  let color_type := file_color_type plat basename ext md.mode
  let input := format_with_color paint supported config
    ("  " ++ icon ++ " " ++ basename) color_type
  input ++ " " ++ format_with_color paint supported config size "file_size"

/-- `build_dir_entry` (main.rs 238-269). -/
def build_dir_entry (paint : CColor → String → String) (supported : Bool)
    (config : Config) (basename : String) (ext : Option String) : String :=
  let extq := "." ++ to_lower (ext.getD "")
  let icon := resolve_icon config.folders config.aliases ""
    [basename, extq, "folder"]
  let color_type := dir_color_type basename
  format_with_color paint supported config
    ("  " ++ icon ++ " " ++ basename ++ "/") color_type

/-- An entry as consumed by the rendering loop of `show_entries`
(main.rs 306-330): the display of its relative path, the `std::path`
decomposition of that path, and the optional metadata. -/
structure EntryR where
  rel : String
  dirname : String
  basename : String
  ext : Option String
  metadata : Option MetaD
deriving DecidableEq

/-- The body of the rendering loop (main.rs 308-329): entries without
metadata render as a dead link; directories and files go through their
builders. -/
def render_entry (plat : Platform) (paint : CColor → String → String)
    (fmt_size : Nat → String) (supported : Bool) (config : Config)
    (e : EntryR) : String :=
  match e.metadata with
  | none =>
    format_with_color paint supported config ("   " ++ e.rel)
      "dead_link"
  | some md =>
    if md.is_dir then build_dir_entry paint supported config e.basename e.ext
    else
      build_file_entry plat paint fmt_size supported config e.dirname
        e.basename e.ext md

/-- The rendering loop of `show_entries` (main.rs 306-330): one pushed
line per entry. -/
def build_list (plat : Platform) (paint : CColor → String → String)
    (fmt_size : Nat → String) (supported : Bool) (config : Config)
    (entries : List EntryR) : List String :=
  entries.map (render_entry plat paint fmt_size supported config)

/-- Claim C7: an entry whose metadata is unavailable renders, whatever its
name, as exactly the line `"  <dead-link-glyph> {name}"` colorized under
the `dead_link` class with no size suffix, and the loop still renders
every other entry: the output has one line per input entry. -/
theorem C7_dead_link :
    ∀ (plat : Platform) (paint : CColor → String → String)
      (fmt_size : Nat → String) (supported : Bool) (config : Config)
      (entries : List EntryR),
      (build_list plat paint fmt_size supported config entries).length =
        entries.length ∧
      ∀ (i : Nat) (h : i < entries.length),
        (entries.get ⟨i, h⟩).metadata = none →
        (build_list plat paint fmt_size supported config entries).get
            ⟨i, by simpa [build_list] using h⟩ =
          format_with_color paint supported config
            ("   " ++ (entries.get ⟨i, h⟩).rel) "dead_link" := by
  intro plat paint fmt_size supported config entries
  refine ⟨by simp [build_list], ?_⟩
  intro i h hnone
  simp only [List.get_eq_getElem] at hnone ⊢
  simp only [build_list, List.getElem_map, render_entry, hnone]

theorem C7_dead_link_witness :
    (build_list .unix (fun _ s => s) (fun _ => "") true
        ⟨[], [], [], [], []⟩
        [⟨".hidden", ".", ".hidden", none, none⟩]).get
      ⟨0, by simp [build_list]⟩ = "   .hidden" := by
  have h := (C7_dead_link .unix (fun _ s => s) (fun _ => "") true
    ⟨[], [], [], [], []⟩ [⟨".hidden", ".", ".hidden", none, none⟩]).2 0
    (by decide) rfl
  exact h.trans (by decide)

/-! ## Ignore filter (`ignore_entry` main.rs 467-497, the filter stage of
`show_entries` main.rs 271-297) and sort (main.rs 299-304) -/

/-- `Entry` (main.rs 42-46) as consumed by the filter and sort stages: the
display of its path, the `std::path` accessors `file_name` and
`extension` on that path, and the optional metadata. -/
structure Entry where
  path : String
  basename : Option String
  ext : Option String
  metadata : Option MetaD
deriving DecidableEq

/-- `ignore_entry` (main.rs 467-497): `true` when the entry is to be kept.
Directories are tested by basename against the folders list; files by
basename and dotted extension against the files list; entries without
metadata against everything. All comparisons on lowercased names. -/
def ignore_entry (e : Entry) (folders files : List String) : Bool :=
  let basename := to_lower (e.basename.getD "")
  let extname := "." ++ to_lower (e.ext.getD "")
  match e.metadata with
  | some md =>
    if md.is_dir then !(folders.contains basename)
    else !(files.contains basename || files.contains extname)
  | none =>
    !(files.contains basename || files.contains extname ||
      folders.contains basename)

/-- The filter stage of `show_entries` (main.rs 271-297): lowercase the
configured ignore lists, drop paths whose display ends in `.`, then keep
an entry when the show-all flag is set or `ignore_entry` keeps it. -/
def filter_entries (all : Bool) (cfg_folders cfg_files : List String)
    (entries : List Entry) : List Entry :=
  let folders := cfg_folders.map to_lower
  let files := cfg_files.map to_lower
  (entries.filter fun e => !(ends_with_dot e.path)).filter
    fun e => all || ignore_entry e folders files

/-- Claim C8: the ignore filter is a case-insensitive membership test of
the basename (for files also the dotted extension) against the configured
lists, bypassed by the show-all flag: a directory survives iff the flag is
set or its lowercased basename is not in the lowercased folders list; a
file survives iff the flag is set or neither its lowercased basename nor
its dotted lowercased extension is in the files list; a `node_modules`
directory in the folders list is excluded without the flag, kept with it,
and its color class is computed from its name alone (`dir` for
`node_modules`, `hidden_dir` only for a leading dot). -/
theorem C8_ignore_filter :
    (∀ (all : Bool) (cfg_folders cfg_files : List String)
        (es : List Entry) (e : Entry) (md : MetaD),
      e.metadata = some md → md.is_dir = true →
      (e ∈ filter_entries all cfg_folders cfg_files es ↔
        e ∈ es ∧ ends_with_dot e.path = false ∧
          (all = true ∨
            (cfg_folders.map to_lower).contains
              (to_lower (e.basename.getD "")) = false))) ∧
    (∀ (all : Bool) (cfg_folders cfg_files : List String)
        (es : List Entry) (e : Entry) (md : MetaD),
      e.metadata = some md → md.is_dir = false →
      (e ∈ filter_entries all cfg_folders cfg_files es ↔
        e ∈ es ∧ ends_with_dot e.path = false ∧
          (all = true ∨
            ((cfg_files.map to_lower).contains
                (to_lower (e.basename.getD "")) = false ∧
              (cfg_files.map to_lower).contains
                ("." ++ to_lower (e.ext.getD "")) = false)))) ∧
    (filter_entries false ["node_modules"] []
        [⟨"node_modules", some "node_modules", none, some ⟨true, 0, 0⟩⟩] =
      []) ∧
    (filter_entries true ["node_modules"] []
        [⟨"node_modules", some "node_modules", none, some ⟨true, 0, 0⟩⟩] =
      [⟨"node_modules", some "node_modules", none, some ⟨true, 0, 0⟩⟩]) ∧
    dir_color_type "node_modules" = "dir" ∧
    dir_color_type ".node_modules" = "hidden_dir" := by
  refine ⟨?_, ?_, by decide, by decide, by decide, by decide⟩
  · intro all cfg_folders cfg_files es e md hmd hdir
    simp [filter_entries, List.mem_filter, ignore_entry, hmd, hdir,
      and_assoc]
    tauto
  · intro all cfg_folders cfg_files es e md hmd hdir
    simp [filter_entries, List.mem_filter, ignore_entry, hmd, hdir,
      and_assoc]
    tauto

theorem C8_ignore_filter_witness :
    ⟨"Target", some "Target", none, some ⟨true, 0, 0⟩⟩ ∈
        filter_entries false ["target"] []
          [(⟨"Target", some "Target", none, some ⟨true, 0, 0⟩⟩ : Entry)] ↔
      (⟨"Target", some "Target", none, some ⟨true, 0, 0⟩⟩ : Entry) ∈
          [(⟨"Target", some "Target", none, some ⟨true, 0, 0⟩⟩ : Entry)] ∧
        ends_with_dot "Target" = false ∧
        (false = true ∨
          (["target"].map to_lower).contains
            (to_lower ((some "Target" : Option String).getD "")) = false) :=
  C8_ignore_filter.1 false ["target"] []
    [⟨"Target", some "Target", none, some ⟨true, 0, 0⟩⟩]
    ⟨"Target", some "Target", none, some ⟨true, 0, 0⟩⟩ ⟨true, 0, 0⟩ rfl rfl

/-- The sort key of main.rs 299-304:
`entry.path.file_name().map(|n| n.to_ascii_lowercase())`. -/
def sort_key (e : Entry) : Option String := e.basename.map to_lower

/-- The ordering `sort_by_key` compares keys with: `None` before `Some`,
strings lexicographically. -/
def key_le (a b : Option String) : Bool :=
  match a, b with
  | none, _ => true
  | some _, none => false
  | some x, some y => decide (x ≤ y)

/-- The sort of `show_entries` (main.rs 299-304): `Vec::sort_by_key` is a
stable sort, modelled by `mergeSort` on the key ordering. -/
def sort_entries (es : List Entry) : List Entry :=
  es.mergeSort fun a b => key_le (sort_key a) (sort_key b)

theorem key_le_trans (a b c : Option String) (h1 : key_le a b = true)
    (h2 : key_le b c = true) : key_le a c = true := by
  match a, b, c with
  | none, _, _ => rfl
  | some x, none, _ => simp [key_le] at h1
  | some x, some y, none => simp [key_le] at h2
  | some x, some y, some z =>
    simp only [key_le, decide_eq_true_eq] at h1 h2 ⊢
    exact le_trans h1 h2

theorem key_le_total (a b : Option String) :
    (key_le a b || key_le b a) = true := by
  match a, b with
  | none, _ => rfl
  | some x, none => rfl
  | some x, some y =>
    simp only [key_le, Bool.or_eq_true, decide_eq_true_eq]
    exact le_total x y

theorem key_le_refl (a : Option String) : key_le a a = true := by
  match a with
  | none => rfl
  | some x => simp [key_le]

/-- Claim C9: the surviving entries are sorted by a stable,
case-insensitive comparison of their basenames: the sorted list is
pairwise nondecreasing under the lowercased-basename key ordering, and
the entries holding any fixed key keep their input relative order (the
sorted list filtered to one key equals the input filtered to it). -/
theorem C9_stable_sort :
    ∀ es : List Entry,
      List.Pairwise (fun a b => key_le (sort_key a) (sort_key b) = true)
        (sort_entries es) ∧
      ∀ k : Option String,
        (sort_entries es).filter (fun e => sort_key e == k) =
          es.filter (fun e => sort_key e == k) := by
  intro es
  constructor
  · unfold sort_entries
    exact List.sorted_mergeSort
      (fun a b c h1 h2 =>
        key_le_trans (sort_key a) (sort_key b) (sort_key c) h1 h2)
      (fun a b => key_le_total (sort_key a) (sort_key b)) es
  · intro k
    have hsub : List.Sublist (es.filter (fun e => sort_key e == k)) es :=
      List.filter_sublist es
    have hpair : (es.filter (fun e => sort_key e == k)).Pairwise
        (fun a b => key_le (sort_key a) (sort_key b) = true) := by
      apply List.pairwise_of_forall_mem_list
      intro a ha b hb
      have hka : sort_key a = k := by
        simpa using (List.mem_filter.mp ha).2
      have hkb : sort_key b = k := by
        simpa using (List.mem_filter.mp hb).2
      rw [hka, hkb]
      exact key_le_refl k
    have h1 : List.Sublist (es.filter (fun e => sort_key e == k))
        (sort_entries es) := by
      unfold sort_entries
      exact List.sublist_mergeSort
        (fun a b c h1 h2 =>
          key_le_trans (sort_key a) (sort_key b) (sort_key c) h1 h2)
        (fun a b => key_le_total (sort_key a) (sort_key b)) hpair hsub
    have hall : ∀ x ∈ es.filter (fun e => sort_key e == k),
        (sort_key x == k) = true :=
      fun x hx => (List.mem_filter.mp hx).2
    have h3 : List.Sublist (es.filter (fun e => sort_key e == k))
        ((sort_entries es).filter (fun e => sort_key e == k)) := by
      have h4 := List.Sublist.filter (fun e => sort_key e == k) h1
      rwa [List.filter_eq_self.mpr hall] at h4
    have h2 : List.Perm ((sort_entries es).filter (fun e => sort_key e == k))
        (es.filter (fun e => sort_key e == k)) := by
      unfold sort_entries
      exact (List.mergeSort_perm es _).filter (fun e => sort_key e == k)
    exact (h3.eq_of_length h2.length_eq.symm).symm

end LL
